import Mathlib

/-!
Verification of the `compressedhandler` HTTP middleware (Go).

The repository holds two overlapping drafts of the same package:

* `src/compress.go` ("draft A"): map-based `parseEncodings`, an `accepts`
  that checks `identity` first, a `CompressedHandler` orchestrator whose
  deflate branch can observe an acquisition error, and exported pools.
* `src/unnamed/part_000` ("draft B"): struct-based `codings`, an `accepts`
  that ignores `identity`, a `Handle` orchestrator.

The embedding below translates both drafts.  Go strings are modelled as
`List Char`; `float64` quality values are modelled by `GoFloat`, a sum of
NaN, the two infinities and an exact rational (IEEE rounding of finite
decimals is not modelled; no theorem below depends on it).  The external
collaborators (the `compress/gzip` and `compress/flate` codecs and the
response sink) are modelled at their documented interface: an encoder is
reset to a sink, buffers written bytes, and on `Close` emits one framed
stream into the sink; the frame is an invertible model of the RFC 1952 /
RFC 1951 framing, the bit-level algorithm being out of scope.
-/

/-- Model of a Go `float64` quality value: NaN, the infinities, or a finite
value carried exactly as a rational. -/
inductive GoFloat where
  | nan
  | inf
  | neginf
  | fin (q : Rat)
deriving DecidableEq, Repr

/-- IEEE-style strict order on `GoFloat`: any comparison with NaN is false. -/
def GoFloat.lt : GoFloat → GoFloat → Bool
  | .nan, _ => false
  | _, .nan => false
  | .neginf, .neginf => false
  | .neginf, _ => true
  | _, .neginf => false
  | .inf, _ => false
  | .fin _, .inf => true
  | .fin a, .fin b => decide (a < b)

/-- IEEE-style non-strict order on `GoFloat`: any comparison with NaN is false. -/
def GoFloat.le : GoFloat → GoFloat → Bool
  | .nan, _ => false
  | _, .nan => false
  | .neginf, _ => true
  | _, .neginf => false
  | _, .inf => true
  | .inf, _ => false
  | .fin a, .fin b => decide (a ≤ b)

/-- A weight lies in the closed interval from 0.0 to 1.0 under the IEEE
order (false for NaN, since NaN compares false both ways). -/
def inUnitInterval (w : GoFloat) : Bool :=
  GoFloat.le (.fin 0) w && GoFloat.le w (.fin 1)

/-- Errors appearing in the package.  `errEmptyContentCoding` models the
`ErrEmptyContentCoding` value referenced by draft A (defined outside the
provided sources), `errUnHijackable` models `ErrUnHijackable`,
`parseFloatError` models the error returned by `strconv.ParseFloat`, and
`invalidCompressionLevel` models the only error `flate.NewWriter` can
return. -/
inductive GoErr where
  | errEmptyContentCoding
  | errUnHijackable
  | parseFloatError (s : List Char)
  | invalidCompressionLevel
deriving DecidableEq, Repr

/-- The coding decision enumeration `flateType` from both drafts. -/
inductive flateType where
  | Identity
  | Deflate
  | Gzip
deriving DecidableEq, Repr

/-! ### Go string primitives (modelled on `List Char`) -/

/-- Model of Go `strings.Split` with a one-character separator: splitting
the empty string yields one empty piece, as in Go. -/
def goSplit : List Char → Char → List (List Char)
  | [], _ => [[]]
  | c :: cs, sep =>
    if c = sep then [] :: goSplit cs sep
    else
      match goSplit cs sep with
      | [] => [[c]]
      | h :: t => (c :: h) :: t

/-- ASCII whitespace predicate standing in for `unicode.IsSpace` on the
ASCII range used by `Accept-Encoding` values. -/
def isGoSpace (c : Char) : Bool :=
  c = ' ' || c = '\t' || c = '\n' || c = '\r'

/-- Model of Go `strings.TrimSpace`. -/
def goTrim (l : List Char) : List Char :=
  ((l.dropWhile isGoSpace).reverse.dropWhile isGoSpace).reverse

/-- Model of Go `strings.ToLower` on the ASCII range. -/
def goLower (l : List Char) : List Char :=
  l.map Char.toLower

/-- Model of `strings.HasPrefix(part, "q=")`. -/
def startsWithQ : List Char → Bool
  | 'q' :: '=' :: _ => true
  | _ => false

/-- Digit run to a natural number. -/
def digitsToNat (l : List Char) : Nat :=
  l.foldl (fun a c => a * 10 + (c.toNat - 48)) 0

/-- Decimal numeral (optional fraction part) to an exact rational; `none`
when the characters are not a plain decimal numeral. -/
def parseDec (l : List Char) : Option Rat :=
  let ip := l.takeWhile Char.isDigit
  let rest := l.dropWhile Char.isDigit
  match rest with
  | [] => if ip.isEmpty then none else some (mkRat (digitsToNat ip) 1)
  | '.' :: fp =>
    if fp.all Char.isDigit && !(ip.isEmpty && fp.isEmpty) then
      some (mkRat (digitsToNat ip * 10 ^ fp.length + digitsToNat fp) (10 ^ fp.length))
    else none
  | _ => none

/-- Model of `strconv.ParseFloat(s, 64)` restricted to the forms this
package can meet: an optional sign, then case-insensitively `nan`, `inf`
or `infinity`, or a plain decimal numeral (exponents, hex floats and digit
underscores are omitted).  The boolean is `true` when Go would return a
nil error; on a syntax error Go returns the value 0, modelled by
`(.fin 0, false)`. -/
def parseGoFloat (l : List Char) : GoFloat × Bool :=
  let sr : Bool × List Char :=
    match l with
    | '+' :: t => (false, t)
    | '-' :: t => (true, t)
    | t => (false, t)
  let low := goLower sr.2
  if low = ['n', 'a', 'n'] then (.nan, true)
  else if low = ['i', 'n', 'f'] ∨ low = ['i', 'n', 'f', 'i', 'n', 'i', 't', 'y'] then
    ((if sr.1 then .neginf else .inf), true)
  else
    match parseDec sr.2 with
    | some q => (.fin (if sr.1 then -q else q), true)
    | none => (.fin 0, false)

/-! ### parseCoding (both drafts)

Both drafts run the same loop over the `";"`-split segments of one token:
each iteration trims the segment and resets `qvalue` to `DefaultQValue`;
iteration 0 lower-cases the segment into `coding`; a later segment with
the `q=` prefix parses the remainder and clamps the result into the unit
interval.  Draft A additionally records the `ParseFloat` error (overwritten
by every `q=` segment) and ends by replacing the error with
`ErrEmptyContentCoding` when the coding name is empty. -/

/-- The default qvalue `DefaultQValue = 1.0` from both drafts. -/
def DefaultQValue : GoFloat := .fin 1

/-- The clamp written inline in both `parseCoding` loops:
`if qvalue < 0.0` then 0.0 `else if qvalue > 1.0` then 1.0. -/
def clampQ (q : GoFloat) : GoFloat :=
  if GoFloat.lt q (.fin 0) then .fin 0
  else if GoFloat.lt (.fin 1) q then .fin 1
  else q

/-- The shared `parseCoding` loop body over indexed segments, threading
`(coding, qvalue, err)` exactly as the Go `for n, part := range` loop does
(draft B simply has no `err` variable; its `(coding, qvalue)` computation
is this loop's first two components). -/
def parseCodingLoop : List (List Char) → Nat → List Char × GoFloat × Option GoErr →
    List Char × GoFloat × Option GoErr
  | [], _, acc => acc
  | part :: rest, n, (coding, _, err) =>
    let p := goTrim part
    if n = 0 then
      parseCodingLoop rest (n + 1) (goLower p, DefaultQValue, err)
    else if startsWithQ p then
      let r := parseGoFloat (p.drop 2)
      let e := if r.2 then none else some (GoErr.parseFloatError (p.drop 2))
      parseCodingLoop rest (n + 1) (coding, clampQ r.1, e)
    else
      parseCodingLoop rest (n + 1) (coding, DefaultQValue, err)

/-- Draft A `parseCoding` (src/compress.go lines 192-217): returns the
coding, the qvalue, and the error; an empty coding name forces
`ErrEmptyContentCoding`.  The accumulators start at Go's zero values. -/
def parseCodingA (piece : List Char) : List Char × GoFloat × Option GoErr :=
  let r := parseCodingLoop (goSplit piece ';') 0 ([], .fin 0, none)
  (r.1, r.2.1, if r.1 = [] then some GoErr.errEmptyContentCoding else r.2.2)

/-- Draft B `parseCoding` (src/unnamed/part_000 lines 170-188): the same
loop without error bookkeeping; returns the coding and the qvalue. -/
def parseCodingB (piece : List Char) : List Char × GoFloat :=
  let r := parseCodingLoop (goSplit piece ';') 0 ([], .fin 0, none)
  (r.1, r.2.1)

/-! ### parseEncodings and accepts (draft A, src/compress.go) -/

/-- Draft A `codings`: a Go `map[string]float64`, modelled as an
association list with overwrite-on-assign semantics. -/
def codingsMap := List (List Char × GoFloat)

/-- Go map assignment `c[k] = v`: replace the binding if the key is
present, otherwise add it. -/
def mapAssign (m : List (List Char × GoFloat)) (k : List Char) (v : GoFloat) :
    List (List Char × GoFloat) :=
  if (m.lookup k).isSome then
    m.map (fun p => if p.1 = k then (k, v) else p)
  else m ++ [(k, v)]

/-- Go map read `c[k]` on a `map[string]float64`: the zero value 0.0 when
the key is absent. -/
def mapRead (m : List (List Char × GoFloat)) (k : List Char) : GoFloat :=
  (m.lookup k).getD (.fin 0)

/-- Draft A `parseEncodings` (src/compress.go lines 167-187): split on
`,`, run each piece through `parseCoding`; a piece with an error is
recorded as a `KeyError` in the `ErrorList` (modelled as a list of
piece/error pairs, the `ErrorList` type itself being defined outside the
provided sources) and not assigned into the map.  This is the loop body;
`parseEncodingsA` is the entry point. -/
def parseEncLoopA : List (List Char) → List (List Char × GoFloat) × List (List Char × GoErr) →
    List (List Char × GoFloat) × List (List Char × GoErr)
  | [], acc => acc
  | ss :: rest, (c, e) =>
    let r := parseCodingA ss
    match r.2.2 with
    | some err => parseEncLoopA rest (c, e ++ [(ss, err)])
    | none => parseEncLoopA rest (mapAssign c r.1 r.2.1, e)

/-- Draft A `parseEncodings`, entry point: the map starts empty, the error
list starts empty. -/
def parseEncodingsA (s : List Char) : List (List Char × GoFloat) × List (List Char × GoErr) :=
  parseEncLoopA (goSplit s ',') ([], [])

/-- Draft A selection over the parsed map (the body of `accepts`,
src/compress.go lines 142-158): `identity` first, then `gzip`, then
`deflate`, each accepted when its weight is strictly greater than 0.0. -/
def selectA (m : List (List Char × GoFloat)) : flateType :=
  if GoFloat.lt (.fin 0) (mapRead m ['i', 'd', 'e', 'n', 't', 'i', 't', 'y']) then .Identity
  else if GoFloat.lt (.fin 0) (mapRead m ['g', 'z', 'i', 'p']) then .Gzip
  else if GoFloat.lt (.fin 0) (mapRead m ['d', 'e', 'f', 'l', 'a', 't', 'e']) then .Deflate
  else .Identity

/-- Go `r.Header.Get("Accept-Encoding")`: the empty string when the
request carries no such header.  A request is modelled by its optional
`Accept-Encoding` value. -/
def headerGet : Option (List Char) → List Char
  | none => []
  | some s => s

/-- Draft A `accepts` (src/compress.go lines 142-158): parse the header,
discard the error, select. -/
def acceptsA (req : Option (List Char)) : flateType :=
  selectA (parseEncodingsA (headerGet req)).1

/-! ### parseEncodings and accepts (draft B, src/unnamed/part_000) -/

/-- Draft B `codings` (src/unnamed/part_000 lines 127-131): a struct of
the three retained weights, zero-initialised. -/
structure codings where
  identity : GoFloat
  gzip : GoFloat
  deflate : GoFloat
deriving DecidableEq, Repr

/-- Draft B `parseEncodings` (src/unnamed/part_000 lines 152-165): split
on `,`, run each piece through `parseCoding`, and switch on the coding
name, keeping only the three known fields.  This is the loop body;
`parseEncodingsB` is the entry point. -/
def parseEncLoopB : List (List Char) → codings → codings
  | [], c => c
  | ss :: rest, c =>
    let r := parseCodingB ss
    parseEncLoopB rest
      (if r.1 = ['i', 'd', 'e', 'n', 't', 'i', 't', 'y'] then ⟨r.2, c.gzip, c.deflate⟩
       else if r.1 = ['g', 'z', 'i', 'p'] then ⟨c.identity, r.2, c.deflate⟩
       else if r.1 = ['d', 'e', 'f', 'l', 'a', 't', 'e'] then ⟨c.identity, c.gzip, r.2⟩
       else c)

/-- Draft B `parseEncodings`, entry point: the struct starts at its zero
value. -/
def parseEncodingsB (s : List Char) : codings :=
  parseEncLoopB (goSplit s ',') ⟨.fin 0, .fin 0, .fin 0⟩

/-- Draft B `accepts` (src/unnamed/part_000 lines 134-143): `gzip`, then
`deflate`, defaulting to `Identity`; `identity` is never consulted. -/
def acceptsB (req : Option (List Char)) : flateType :=
  let c := parseEncodingsB (headerGet req)
  if GoFloat.lt (.fin 0) c.gzip then .Gzip
  else if GoFloat.lt (.fin 0) c.deflate then .Deflate
  else .Identity

/-! ### External codec collaborators (modelled) -/

/-- Model of the gzip framing produced by one `gzip.Writer` life cycle
(`Reset`; writes; `Close`): a header, the payload with its length, and a
trailer.  The frame is an invertible stand-in for the RFC 1952 stream; the
DEFLATE bit-level algorithm is an out-of-scope collaborator, and only the
round-trip contract of the codec is used. -/
def gzipCompress (d : List Nat) : List Nat :=
  31 :: 139 :: 8 :: d.length :: (d ++ [0, 0])

/-- Model of a standard gzip reader over `gzipCompress` frames: recovers
the payload, or `none` on a malformed stream. -/
def gzipDecompress : List Nat → Option (List Nat)
  | 31 :: 139 :: 8 :: n :: rest =>
    if rest.length = n + 2 ∧ rest.drop n = [0, 0] then some (rest.take n) else none
  | _ => none

/-- Model of the raw deflate framing produced by one `flate.Writer` life
cycle, analogous to `gzipCompress`; `Close` on a writer with no writes
still emits the nonempty terminator frame. -/
def flateCompress (d : List Nat) : List Nat :=
  d.length :: (d ++ [3, 0])

/-- Model of a raw deflate reader over `flateCompress` frames. -/
def flateDecompress : List Nat → Option (List Nat)
  | n :: rest =>
    if rest.length = n + 2 ∧ rest.drop n = [3, 0] then some (rest.take n) else none
  | [] => none

/-- A pooled `gzip.Writer` between `Reset(w)` and `Close()`: the bytes
written through it since the reset.  `Reset` empties the buffer and binds
the writer to the sink; `Close` emits the framed stream into the sink. -/
structure GzipWriterState where
  buf : List Nat
deriving DecidableEq, Repr

/-- Model of `gzip.Writer.Reset(w)` as performed by `GetGzip`. -/
def GzipWriterState.reset : GzipWriterState := ⟨[]⟩

/-- Model of `gzip.Writer.Write(p)`. -/
def GzipWriterState.write (g : GzipWriterState) (p : List Nat) : GzipWriterState :=
  ⟨g.buf ++ p⟩

/-- The bytes `gzip.Writer.Close()` emits into the bound sink. -/
def GzipWriterState.closeEmit (g : GzipWriterState) : List Nat :=
  gzipCompress g.buf

/-- A pooled `flate.Writer` between `Reset(w)` and `Close()`. -/
structure FlateWriterState where
  buf : List Nat
deriving DecidableEq, Repr

/-- Model of `flate.Writer.Reset(w)` as performed by `GetWriter`. -/
def FlateWriterState.reset : FlateWriterState := ⟨[]⟩

/-- Model of `flate.Writer.Write(p)`. -/
def FlateWriterState.write (f : FlateWriterState) (p : List Nat) : FlateWriterState :=
  ⟨f.buf ++ p⟩

/-- The bytes `flate.Writer.Close()` emits into the bound sink. -/
def FlateWriterState.closeEmit (f : FlateWriterState) : List Nat :=
  flateCompress f.buf

/-! ### Response sink and orchestrator traces -/

/-- The observable outcome of one request: the response headers (in
mutation order) and the body bytes that reached the underlying sink. -/
structure Response where
  headers : List (List Char × List Char)
  body : List Nat
deriving DecidableEq, Repr

/-- Model of `w.Header().Add(k, v)`: append the pair. -/
def headerAdd (h : List (List Char × List Char)) (k v : List Char) :
    List (List Char × List Char) :=
  h ++ [(k, v)]

/-- Model of `w.Header().Set(k, v)`: replace the binding if present, else append. -/
def headerSet (h : List (List Char × List Char)) (k v : List Char) :
    List (List Char × List Char) :=
  if (h.lookup k).isSome then h.map (fun p => if p.1 = k then (k, v) else p)
  else h ++ [(k, v)]

/-- Life-cycle events emitted by the orchestrators, in execution order:
pool checkout, header mutation, running the inner handler, pool check-in
(`Put`), and encoder finalisation (`Close`).  Deferred functions run at
function exit, after the switch body, preserving their statement order. -/
inductive Event where
  | acquireGzip
  | acquireFlate
  | putGzip
  | putFlate
  | closeGzip
  | closeFlate
  | setHeader (k v : List Char)
  | serveInner
deriving DecidableEq, Repr

/-- The `"Vary"` header name. -/
def varyK : List Char := ['V', 'a', 'r', 'y']

/-- The `"Accept-Encoding"` header name. -/
def acceptEncodingK : List Char :=
  ['A', 'c', 'c', 'e', 'p', 't', '-', 'E', 'n', 'c', 'o', 'd', 'i', 'n', 'g']

/-- The `"Content-Encoding"` header name. -/
def contentEncodingK : List Char :=
  ['C', 'o', 'n', 't', 'e', 'n', 't', '-', 'E', 'n', 'c', 'o', 'd', 'i', 'n', 'g']

/-- The string `"gzip"`. -/
def gzipV : List Char := ['g', 'z', 'i', 'p']

/-- The string `"deflate"`. -/
def deflateV : List Char := ['d', 'e', 'f', 'l', 'a', 't', 'e']

/-- Draft B `Handle` (src/unnamed/part_000 lines 91-125), for an inner
handler that writes `inner` through the response writer it is given.
Every branch first adds `Vary: Accept-Encoding`.  The gzip branch resets a
pooled writer onto `w`, registers `defer (gzippers.Put(gzw); gzw.Close())`,
sets `Content-Encoding: gzip`, and serves the inner handler through the
wrapper, whose `Write` forwards to the encoder; at exit the deferred
function runs `Put` first and `Close` second, the `Close` flushing the
framed stream into `w`.  The deflate branch is symmetric; the default
branch serves the inner handler on the bare sink.  Returns the response
and the event trace. -/
def Handle (inner : List Nat) (req : Option (List Char)) : Response × List Event :=
  let h0 := headerAdd [] varyK acceptEncodingK
  let ev0 : List Event := [.setHeader varyK acceptEncodingK]
  match acceptsB req with
  | .Gzip =>
    let gzw := GzipWriterState.reset
    let h1 := headerSet h0 contentEncodingK gzipV
    let gzw := gzw.write inner
    (⟨h1, gzw.closeEmit⟩,
      ev0 ++ [.acquireGzip, .setHeader contentEncodingK gzipV, .serveInner,
        .putGzip, .closeGzip])
  | .Deflate =>
    let flw := FlateWriterState.reset
    let h1 := headerSet h0 contentEncodingK deflateV
    let flw := flw.write inner
    (⟨h1, flw.closeEmit⟩,
      ev0 ++ [.acquireFlate, .setHeader contentEncodingK deflateV, .serveInner,
        .putFlate, .closeFlate])
  | .Identity =>
    (⟨h0, inner⟩, ev0 ++ [.serveInner])

/-- Draft A `CompressedHandler` (src/compress.go lines 104-139).  The gzip
branch matches draft B (its deferred function also runs `Gzippers.Put`
before `gzw.Close`).  The deflate branch calls `GetWriter`, whose error is
the pooled result of `flate.NewWriter(nil, flate.DefaultCompression)` —
always nil for the shipped constant, modelled as the parameter `flwErr`
since the constructor is an external collaborator — and registers
`defer flw.Close()` with no `Put` anywhere; on an error it jumps past the
`Content-Encoding` assignment into the default branch, serving the inner
handler on the bare sink, after which the deferred `Close` still emits the
empty frame into `w`. -/
def CompressedHandler (flwErr : Option GoErr) (inner : List Nat)
    (req : Option (List Char)) : Response × List Event :=
  let h0 := headerAdd [] varyK acceptEncodingK
  let ev0 : List Event := [.setHeader varyK acceptEncodingK]
  match acceptsA req with
  | .Gzip =>
    let gzw := GzipWriterState.reset
    let h1 := headerSet h0 contentEncodingK gzipV
    let gzw := gzw.write inner
    (⟨h1, gzw.closeEmit⟩,
      ev0 ++ [.acquireGzip, .setHeader contentEncodingK gzipV, .serveInner,
        .putGzip, .closeGzip])
  | .Deflate =>
    let flw := FlateWriterState.reset
    match flwErr with
    | some _ =>
      (⟨h0, inner ++ flw.closeEmit⟩,
        ev0 ++ [.acquireFlate, .serveInner, .closeFlate])
    | none =>
      let h1 := headerSet h0 contentEncodingK deflateV
      let flw2 := flw.write inner
      (⟨h1, flw2.closeEmit⟩,
        ev0 ++ [.acquireFlate, .setHeader contentEncodingK deflateV, .serveInner,
          .closeFlate])
  | .Identity =>
    (⟨h0, inner⟩, ev0 ++ [.serveInner])

/-! ### Connection hijacking -/

/-- The `ErrUnHijackable` value (src/compress.go line 55, src/unnamed/part_000
line 45). -/
def ErrUnHijackable : GoErr := .errUnHijackable

/-- An underlying response sink's optional hijack capability: the Go type
assertion `w.(http.Hijacker)` succeeds exactly when the capability is
present, in which case calling it yields the connection and buffer (both
abstracted as numbers) or an error. -/
structure Sink where
  hijack : Option (Unit → Except GoErr (Nat × Nat))

/-- The compressing response writer as seen by `Hijack`: it holds the
underlying `http.ResponseWriter` (both drafts' `Hijack` methods only
consult that field). -/
structure responseWriter where
  underlying : Sink

/-- Method `Hijack` (src/compress.go lines 89-95, src/unnamed/part_000 lines
77-83): if the underlying sink is not an `http.Hijacker`, return
`ErrUnHijackable`; otherwise forward the call unchanged.  The definition
is total: no input crashes. -/
def responseWriter.Hijack (c : responseWriter) : Except GoErr (Nat × Nat) :=
  match c.underlying.hijack with
  | none => .error ErrUnHijackable
  | some hj => hj ()

/-! ### Derived notions used by the theorems -/

/-- The weight contributed by one (non-first) segment of a coding token,
as one iteration of the `parseCoding` loop computes it: the default 1.0,
overridden by the clamped `ParseFloat` result when the trimmed segment
carries the `q=` prefix. -/
def segWeight (part : List Char) : GoFloat :=
  let p := goTrim part
  if startsWithQ p then clampQ (parseGoFloat (p.drop 2)).1 else DefaultQValue

/-- A weight is NaN or lies in the unit interval. -/
def nanOrUnit (w : GoFloat) : Bool :=
  w == .nan || inUnitInterval w

/-- The weight the `parseCoding` loop actually produces for a token: the
default 1.0 when the token has a single segment (the coding name),
otherwise the `segWeight` of the LAST segment — every iteration resets the
weight, so earlier `q=` segments have no effect. -/
def lastSegWeight (piece : List Char) : GoFloat :=
  match goSplit piece ';' with
  | [] => DefaultQValue
  | [_] => DefaultQValue
  | _ :: rest => segWeight (rest.getLastD [])

/-! ## Theorems -/

/-- The modelled gzip codec round-trips: a standard reader recovers
exactly the bytes written through the encoder. -/
theorem gzip_roundtrip (d : List Nat) : gzipDecompress (gzipCompress d) = some d := by
  simp only [gzipCompress, gzipDecompress]
  rw [if_pos ⟨by simp, List.drop_left d [0, 0]⟩, List.take_left]

/-- C6: a request carrying no `Accept-Encoding` header yields the empty
mapping and the Identity decision in both drafts, and both orchestrators
serve the inner handler on the bare sink: no `Content-Encoding` header,
and a body byte-identical to what the inner handler wrote. -/
theorem no_accept_encoding_identity_passthrough (e : Option GoErr) (inner : List Nat) :
    (parseEncodingsA []).1 = [] ∧
    parseEncodingsB [] = ⟨.fin 0, .fin 0, .fin 0⟩ ∧
    acceptsA none = .Identity ∧
    acceptsB none = .Identity ∧
    (CompressedHandler e inner none).1.headers.lookup contentEncodingK = none ∧
    (CompressedHandler e inner none).1.body = inner ∧
    (Handle inner none).1.headers.lookup contentEncodingK = none ∧
    (Handle inner none).1.body = inner :=
  ⟨by decide, by decide, by decide, by decide, rfl, rfl, rfl, rfl⟩

/-- C7: a request with `Accept-Encoding: gzip` is answered with
`Content-Encoding: gzip` in both drafts, and decompressing the response
body recovers exactly the bytes the inner handler wrote, whatever they
are. -/
theorem gzip_roundtrip_identity_on_body (e : Option GoErr) (inner : List Nat) :
    (Handle inner (some "gzip".data)).1.headers.lookup contentEncodingK = some gzipV ∧
    gzipDecompress (Handle inner (some "gzip".data)).1.body = some inner ∧
    (CompressedHandler e inner (some "gzip".data)).1.headers.lookup contentEncodingK =
      some gzipV ∧
    gzipDecompress (CompressedHandler e inner (some "gzip".data)).1.body = some inner :=
  ⟨rfl, gzip_roundtrip inner, rfl, gzip_roundtrip inner⟩

/-- C8: `Hijack` on the compressing response writer returns
`ErrUnHijackable` when the underlying sink lacks the hijack capability,
and otherwise forwards the call to the sink unchanged; the definition is
total, so no input crashes. -/
theorem hijack_capability_delegation (c : responseWriter) :
    (c.underlying.hijack = none → c.Hijack = .error ErrUnHijackable) ∧
    (∀ f, c.underlying.hijack = some f → c.Hijack = f ()) := by
  constructor
  · intro h
    unfold responseWriter.Hijack
    rw [h]
  · intro f h
    unfold responseWriter.Hijack
    rw [h]

/-- Witness for C8 at concrete sinks: one without the capability, one
with it. -/
theorem hijack_capability_delegation_witness :
    responseWriter.Hijack ⟨⟨none⟩⟩ = .error ErrUnHijackable ∧
    responseWriter.Hijack ⟨⟨some (fun _ => .ok (3, 4))⟩⟩ = .ok (3, 4) :=
  ⟨(hijack_capability_delegation ⟨⟨none⟩⟩).1 rfl,
   (hijack_capability_delegation ⟨⟨some (fun _ => .ok (3, 4))⟩⟩).2 _ rfl⟩

/-- C9: on the header `identity, gzip`, which gives both `identity` and
`gzip` weight 1.0 in both drafts, draft A's `accepts` (identity first)
returns Identity while draft B's `accepts` (identity ignored) returns
Gzip: the two selection functions disagree. -/
theorem drafts_disagree_on_identity :
    GoFloat.lt (.fin 0)
      (mapRead (parseEncodingsA "identity, gzip".data).1 "identity".data) = true ∧
    GoFloat.lt (.fin 0)
      (mapRead (parseEncodingsA "identity, gzip".data).1 "gzip".data) = true ∧
    GoFloat.lt (.fin 0) (parseEncodingsB "identity, gzip".data).identity = true ∧
    GoFloat.lt (.fin 0) (parseEncodingsB "identity, gzip".data).gzip = true ∧
    acceptsA (some "identity, gzip".data) = .Identity ∧
    acceptsB (some "identity, gzip".data) = .Gzip := by
  decide

/-- C10: whenever negotiation selects Gzip and the inner handler writes
no bytes, both orchestrators still emit a nonempty body, namely the gzip
encoding of the empty byte sequence (the frame the encoder's `Close`
writes), under `Content-Encoding: gzip`. -/
theorem gzip_empty_body_nonempty (s : List Char) (e : Option GoErr)
    (hA : acceptsA (some s) = .Gzip) (hB : acceptsB (some s) = .Gzip) :
    (CompressedHandler e [] (some s)).1.body = gzipCompress [] ∧
    (Handle [] (some s)).1.body = gzipCompress [] ∧
    gzipCompress [] ≠ [] ∧
    (CompressedHandler e [] (some s)).1.headers.lookup contentEncodingK = some gzipV ∧
    (Handle [] (some s)).1.headers.lookup contentEncodingK = some gzipV := by
  unfold CompressedHandler Handle
  rw [hA, hB]
  exact ⟨rfl, rfl, by decide, rfl, rfl⟩

/-- Witness for C10 at the header `gzip` (negotiated coding Gzip in both
drafts). -/
theorem gzip_empty_body_nonempty_witness :
    (Handle [] (some "gzip".data)).1.body = gzipCompress [] ∧ gzipCompress [] ≠ [] :=
  ⟨(gzip_empty_body_nonempty "gzip".data none (by decide) (by decide)).2.1,
   (gzip_empty_body_nonempty "gzip".data none (by decide) (by decide)).2.2.1⟩

/-- C1 (code bug evidence): on a gzip request, both orchestrators' event
traces run the pool check-in (`Put`) strictly before the encoder's
finalisation (`Close`) — the deferred functions read
`Gzippers.Put(gzw); gzw.Close()` — so the encoder is checked in
unfinalized; and draft A's deflate branch (`defer flw.Close()` with no
`Put` anywhere) never returns the flate writer to its pool at all. -/
theorem put_precedes_close_trace :
    (Handle [1, 2] (some "gzip".data)).2 =
      [.setHeader varyK acceptEncodingK, .acquireGzip,
       .setHeader contentEncodingK gzipV, .serveInner, .putGzip, .closeGzip] ∧
    (CompressedHandler none [1, 2] (some "gzip".data)).2 =
      [.setHeader varyK acceptEncodingK, .acquireGzip,
       .setHeader contentEncodingK gzipV, .serveInner, .putGzip, .closeGzip] ∧
    (Handle [1, 2] (some "deflate".data)).2 =
      [.setHeader varyK acceptEncodingK, .acquireFlate,
       .setHeader contentEncodingK deflateV, .serveInner, .putFlate, .closeFlate] ∧
    Event.putFlate ∉ (CompressedHandler none [1, 2] (some "deflate".data)).2 := by
  decide

/-- C2 (code bug evidence): when `GetWriter` reports an acquisition error
on a deflate request, draft A's orchestrator does fall back to the
uncompressed path with no `Content-Encoding` header, but the `defer
flw.Close()` registered before the error check still flushes the empty
deflate frame into the sink after the inner handler has written, so the
body is the inner handler's bytes followed by trailer garbage — not
byte-identical. -/
theorem deflate_error_path_appends_trailer :
    (CompressedHandler (some .invalidCompressionLevel) [1, 2, 3]
        (some "deflate".data)).1.headers.lookup contentEncodingK = none ∧
    (CompressedHandler (some .invalidCompressionLevel) [1, 2, 3]
        (some "deflate".data)).1.body = [1, 2, 3] ++ flateCompress [] ∧
    (CompressedHandler (some .invalidCompressionLevel) [1, 2, 3]
        (some "deflate".data)).1.body ≠ [1, 2, 3] := by
  decide

/-- Lookup skips a head pair whose key differs. -/
theorem lookup_cons_ne {β : Type} (a k : List Char) (b : β) (es : List (List Char × β))
    (h : a ≠ k) : List.lookup a ((k, b) :: es) = List.lookup a es := by
  rw [List.lookup_cons]
  have hb : (a == k) = false := by simpa using h
  rw [hb]

/-- Replacing the bindings of one key leaves lookups of other keys
unchanged. -/
theorem lookup_map_replace (k k' : List Char) (v : GoFloat) (h : k' ≠ k) :
    ∀ m : List (List Char × GoFloat),
      (m.map (fun p => if p.1 = k then (k, v) else p)).lookup k' = m.lookup k'
  | [] => rfl
  | (k1, v1) :: t => by
    have ht := lookup_map_replace k k' v h t
    simp only [List.map_cons]
    by_cases h1 : k1 = k
    · rw [if_pos h1, lookup_cons_ne k' k v _ h, lookup_cons_ne k' k1 v1 t (h1 ▸ h)]
      exact ht
    · rw [if_neg h1]
      by_cases h2 : k' = k1
      · subst h2
        rw [List.lookup_cons, List.lookup_cons]
        have hb : (k' == k') = true := by simp
        rw [hb]
      · rw [lookup_cons_ne k' k1 v1 _ h2, lookup_cons_ne k' k1 v1 t h2]
        exact ht

/-- Appending a pair with a different key leaves lookups unchanged. -/
theorem lookup_append_ne {β : Type} (m : List (List Char × β)) (k k' : List Char) (v : β)
    (h : k' ≠ k) : (m ++ [(k, v)]).lookup k' = m.lookup k' := by
  induction m with
  | nil =>
    rw [List.nil_append, lookup_cons_ne k' k v [] h]
  | cons a t ih =>
    obtain ⟨k1, v1⟩ := a
    by_cases h2 : k' = k1
    · subst h2
      rw [List.cons_append, List.lookup_cons, List.lookup_cons]
      have hb : (k' == k') = true := by simp
      rw [hb]
    · rw [List.cons_append, lookup_cons_ne k' k1 v1 _ h2, lookup_cons_ne k' k1 v1 t h2]
      exact ih

/-- Go map assignment of one key leaves reads of other keys unchanged. -/
theorem lookup_mapAssign_ne (m : List (List Char × GoFloat)) (k k' : List Char) (v : GoFloat)
    (h : k' ≠ k) : (mapAssign m k v).lookup k' = m.lookup k' := by
  unfold mapAssign
  by_cases hm : (m.lookup k).isSome
  · rw [if_pos hm, lookup_map_replace k k' v h m]
  · rw [if_neg hm, lookup_append_ne m k k' v h]

/-- C3 (counterexample): draft A's map-based parser retains tokens naming
other codings: `compress, gzip` parses to a mapping that contains the key
`compress` (so not exactly the gzip singleton), and `*` parses to a
mapping containing the wildcard key, not the empty mapping. -/
theorem map_draft_retains_unknown_codings :
    (parseEncodingsA "compress, gzip".data).1 =
      [("compress".data, .fin 1), ("gzip".data, .fin 1)] ∧
    (parseEncodingsA "*".data).1 = [("*".data, .fin 1)] ∧
    (parseEncodingsA "compress, gzip".data).1.lookup "compress".data = some (.fin 1) := by
  decide

/-- C3 (amended): draft B's struct mapping retains at most the three known
codings (`compress, gzip` yields only gzip at 1.0 and `*` yields the zero
struct), while draft A's map retains every well-formed token; but in
draft A assigning any key other than `identity`, `gzip`, `deflate` never
changes the selection, which reads only those three keys. -/
theorem retained_keys_and_selection_independence :
    parseEncodingsB "compress, gzip".data = ⟨.fin 0, .fin 1, .fin 0⟩ ∧
    parseEncodingsB "*".data = ⟨.fin 0, .fin 0, .fin 0⟩ ∧
    ∀ (m : List (List Char × GoFloat)) (k : List Char) (v : GoFloat),
      k ≠ "identity".data → k ≠ "gzip".data → k ≠ "deflate".data →
      selectA (mapAssign m k v) = selectA m := by
  refine ⟨by decide, by decide, ?_⟩
  intro m k v h1 h2 h3
  unfold selectA mapRead
  rw [lookup_mapAssign_ne m k _ v (Ne.symm h1), lookup_mapAssign_ne m k _ v (Ne.symm h2),
    lookup_mapAssign_ne m k _ v (Ne.symm h3)]

/-- Witness for the amended C3: assigning the `compress` key into the
empty map leaves the selection unchanged. -/
theorem selection_independence_witness :
    selectA (mapAssign [] "compress".data (.fin 1)) = selectA [] :=
  retained_keys_and_selection_independence.2.2 [] "compress".data (.fin 1)
    (by decide) (by decide) (by decide)

/-- Go `strings.Split` never returns an empty list of pieces. -/
theorem goSplit_ne_nil (l : List Char) (c : Char) : goSplit l c ≠ [] := by
  cases l with
  | nil => simp [goSplit]
  | cons a t =>
    unfold goSplit
    by_cases h : a = c
    · simp [h]
    · rw [if_neg h]
      cases h2 : goSplit t c <;> simp

/-- The default of `getLastD` is irrelevant on a nonempty list. -/
theorem getLastD_irrel {α : Type} (l : List α) (h : l ≠ []) (d d' : α) :
    l.getLastD d = l.getLastD d' := by
  cases l with
  | nil => exact absurd rfl h
  | cons a t => rw [List.getLastD_cons, List.getLastD_cons]

/-- One step of the `parseCoding` loop, spelled out. -/
theorem parseCodingLoop_cons (part : List Char) (rest : List (List Char)) (n : Nat)
    (c : List Char) (q : GoFloat) (e : Option GoErr) :
    parseCodingLoop (part :: rest) n (c, q, e) =
      (if n = 0 then
        parseCodingLoop rest (n + 1) (goLower (goTrim part), DefaultQValue, e)
      else if startsWithQ (goTrim part) then
        parseCodingLoop rest (n + 1)
          (c, clampQ (parseGoFloat ((goTrim part).drop 2)).1,
            if (parseGoFloat ((goTrim part).drop 2)).2 then none
            else some (GoErr.parseFloatError ((goTrim part).drop 2)))
      else parseCodingLoop rest (n + 1) (c, DefaultQValue, e)) := rfl

/-- From any index past 0, the loop's final qvalue is the `segWeight` of
the last remaining segment: each iteration overwrites the carried
weight. -/
theorem parseCodingLoop_qvalue : ∀ (l : List (List Char)) (n : Nat)
    (acc : List Char × GoFloat × Option GoErr), l ≠ [] →
    (parseCodingLoop l (n + 1) acc).2.1 = segWeight (l.getLastD [])
  | [], _, _, h => absurd rfl h
  | [a], n, (c, q, e), _ => by
    have hlast : ([a] : List (List Char)).getLastD [] = a := rfl
    rw [parseCodingLoop_cons, if_neg (Nat.succ_ne_zero n), hlast]
    unfold segWeight
    by_cases h : startsWithQ (goTrim a) = true
    · rw [if_pos h, if_pos h]
      rfl
    · rw [if_neg h, if_neg h]
      rfl
  | a :: b :: t, n, (c, q, e), _ => by
    have hlast : (a :: b :: t).getLastD ([] : List Char) = (b :: t).getLastD [] := by
      rw [List.getLastD_cons, getLastD_irrel (b :: t) (by simp) a []]
    rw [parseCodingLoop_cons, if_neg (Nat.succ_ne_zero n), hlast]
    by_cases h : startsWithQ (goTrim a) = true
    · rw [if_pos h]
      exact parseCodingLoop_qvalue (b :: t) (n + 1) _ (by simp)
    · rw [if_neg h]
      exact parseCodingLoop_qvalue (b :: t) (n + 1) _ (by simp)

/-- Running the loop from index 0 on a split token yields
`lastSegWeight`. -/
theorem parseCodingLoop_from_zero (piece : List Char) :
    (parseCodingLoop (goSplit piece ';') 0 ([], .fin 0, none)).2.1 = lastSegWeight piece := by
  unfold lastSegWeight
  cases hs : goSplit piece ';' with
  | nil => exact absurd hs (goSplit_ne_nil piece ';')
  | cons a t =>
    rw [parseCodingLoop_cons, if_pos rfl]
    cases t with
    | nil => rfl
    | cons b t2 => exact parseCodingLoop_qvalue (b :: t2) 0 _ (by simp)

/-- C4 (counterexample): on the token `gzip;q=0.5;v`, the `q=` segment
parses to the clamped value one half, yet both drafts return weight 1.0:
the later segment `v` resets the weight to the default, so the weight is
not determined by the `q=` segment alone. -/
theorem later_segment_resets_qvalue :
    parseCodingB "gzip;q=0.5;v".data = ("gzip".data, .fin 1) ∧
    parseCodingA "gzip;q=0.5;v".data = ("gzip".data, .fin 1, none) ∧
    clampQ (parseGoFloat "0.5".data).1 = .fin (mkRat 1 2) ∧
    GoFloat.fin (mkRat 1 2) ≠ .fin 1 := by
  decide

/-- C4 (amended): in both drafts the token's weight is exactly
`lastSegWeight`: the default 1.0 for a bare coding name, and otherwise the
contribution of the LAST segment — a trailing `q=` segment gives its
clamped parse result (0.0 on a parse failure, with the error surfaced
per token only in draft A), and any trailing segment without the `q=`
prefix resets the weight to the default 1.0, discarding earlier `q=`
segments. -/
theorem qvalue_last_segment_characterization (piece : List Char) :
    (parseCodingB piece).2 = lastSegWeight piece ∧
    (parseCodingA piece).2.1 = lastSegWeight piece := by
  constructor
  · exact parseCodingLoop_from_zero piece
  · exact parseCodingLoop_from_zero piece

/-- The clamp yields NaN (unchanged) or a value in the unit interval. -/
theorem nanOrUnit_clampQ (x : GoFloat) : nanOrUnit (clampQ x) = true := by
  cases x with
  | nan => decide
  | inf => decide
  | neginf => decide
  | fin q =>
    simp only [clampQ, GoFloat.lt]
    by_cases h1 : q < 0
    · rw [if_pos (by simpa using h1)]
      decide
    · by_cases h2 : 1 < q
      · rw [if_neg (by simpa using h1), if_pos (by simpa using h2)]
        decide
      · rw [if_neg (by simpa using h1), if_neg (by simpa using h2)]
        have hq1 : (0 : Rat) ≤ q := le_of_not_lt h1
        have hq2 : q ≤ 1 := le_of_not_lt h2
        simp [nanOrUnit, inUnitInterval, GoFloat.le, hq1, hq2]

/-- The default weight is in the unit interval. -/
theorem nanOrUnit_default : nanOrUnit DefaultQValue = true := by
  decide

/-- Every iteration of the `parseCoding` loop leaves the carried qvalue
NaN-or-unit (the default, or a clamped parse result). -/
theorem nanOrUnit_parseCodingLoop : ∀ (l : List (List Char)) (n : Nat)
    (acc : List Char × GoFloat × Option GoErr), nanOrUnit acc.2.1 = true →
    nanOrUnit (parseCodingLoop l n acc).2.1 = true
  | [], _, _, h => h
  | part :: rest, n, (c, q, e), h => by
    rw [parseCodingLoop_cons]
    by_cases h0 : n = 0
    · rw [if_pos h0]
      exact nanOrUnit_parseCodingLoop rest (n + 1) _ nanOrUnit_default
    · rw [if_neg h0]
      by_cases hq : startsWithQ (goTrim part) = true
      · rw [if_pos hq]
        exact nanOrUnit_parseCodingLoop rest (n + 1) _ (nanOrUnit_clampQ _)
      · rw [if_neg hq]
        exact nanOrUnit_parseCodingLoop rest (n + 1) _ nanOrUnit_default

/-- Draft B `parseCoding` always returns a NaN-or-unit weight. -/
theorem nanOrUnit_parseCodingB (piece : List Char) :
    nanOrUnit (parseCodingB piece).2 = true :=
  nanOrUnit_parseCodingLoop (goSplit piece ';') 0 ([], .fin 0, none) (by decide)

/-- Draft A `parseCoding` always returns a NaN-or-unit weight. -/
theorem nanOrUnit_parseCodingA (piece : List Char) :
    nanOrUnit (parseCodingA piece).2.1 = true :=
  nanOrUnit_parseCodingLoop (goSplit piece ';') 0 ([], .fin 0, none) (by decide)

/-- One step of draft B's `parseEncodings` loop, spelled out. -/
theorem parseEncLoopB_cons (ss : List Char) (rest : List (List Char)) (c : codings) :
    parseEncLoopB (ss :: rest) c =
      parseEncLoopB rest
        (if (parseCodingB ss).1 = ['i', 'd', 'e', 'n', 't', 'i', 't', 'y'] then
          ⟨(parseCodingB ss).2, c.gzip, c.deflate⟩
        else if (parseCodingB ss).1 = ['g', 'z', 'i', 'p'] then
          ⟨c.identity, (parseCodingB ss).2, c.deflate⟩
        else if (parseCodingB ss).1 = ['d', 'e', 'f', 'l', 'a', 't', 'e'] then
          ⟨c.identity, c.gzip, (parseCodingB ss).2⟩
        else c) := rfl

/-- Draft B's accumulation loop preserves NaN-or-unit on all three
fields. -/
theorem parseEncLoopB_inv : ∀ (l : List (List Char)) (c : codings),
    nanOrUnit c.identity = true → nanOrUnit c.gzip = true → nanOrUnit c.deflate = true →
    nanOrUnit (parseEncLoopB l c).identity = true ∧
    nanOrUnit (parseEncLoopB l c).gzip = true ∧
    nanOrUnit (parseEncLoopB l c).deflate = true
  | [], _, h1, h2, h3 => ⟨h1, h2, h3⟩
  | ss :: rest, c, h1, h2, h3 => by
    rw [parseEncLoopB_cons]
    by_cases e1 : (parseCodingB ss).1 = ['i', 'd', 'e', 'n', 't', 'i', 't', 'y']
    · rw [if_pos e1]
      exact parseEncLoopB_inv rest _ (nanOrUnit_parseCodingB ss) h2 h3
    · rw [if_neg e1]
      by_cases e2 : (parseCodingB ss).1 = ['g', 'z', 'i', 'p']
      · rw [if_pos e2]
        exact parseEncLoopB_inv rest _ h1 (nanOrUnit_parseCodingB ss) h3
      · rw [if_neg e2]
        by_cases e3 : (parseCodingB ss).1 = ['d', 'e', 'f', 'l', 'a', 't', 'e']
        · rw [if_pos e3]
          exact parseEncLoopB_inv rest _ h1 h2 (nanOrUnit_parseCodingB ss)
        · rw [if_neg e3]
          exact parseEncLoopB_inv rest _ h1 h2 h3

/-- Go map assignment preserves NaN-or-unit on all stored weights. -/
theorem all_nanOrUnit_mapAssign (m : List (List Char × GoFloat)) (k : List Char)
    (v : GoFloat) (hm : (m.all fun p => nanOrUnit p.2) = true) (hv : nanOrUnit v = true) :
    ((mapAssign m k v).all fun p => nanOrUnit p.2) = true := by
  unfold mapAssign
  by_cases h : (m.lookup k).isSome
  · rw [if_pos h, List.all_map]
    rw [List.all_eq_true] at hm ⊢
    intro x hx
    by_cases hxk : x.1 = k
    · simp [Function.comp, hxk, hv]
    · simp only [Function.comp, if_neg hxk]
      exact hm x hx
  · rw [if_neg h, List.all_append]
    simp [hm, hv]

/-- One step of draft A's `parseEncodings` loop, spelled out. -/
theorem parseEncLoopA_cons (ss : List Char) (rest : List (List Char))
    (c : List (List Char × GoFloat)) (e : List (List Char × GoErr)) :
    parseEncLoopA (ss :: rest) (c, e) =
      (match (parseCodingA ss).2.2 with
       | some err => parseEncLoopA rest (c, e ++ [(ss, err)])
       | none =>
         parseEncLoopA rest (mapAssign c (parseCodingA ss).1 (parseCodingA ss).2.1, e)) :=
  rfl

/-- Draft A's accumulation loop preserves NaN-or-unit on all stored
weights. -/
theorem parseEncLoopA_inv : ∀ (l : List (List Char))
    (acc : List (List Char × GoFloat) × List (List Char × GoErr)),
    (acc.1.all fun p => nanOrUnit p.2) = true →
    ((parseEncLoopA l acc).1.all fun p => nanOrUnit p.2) = true
  | [], _, h => h
  | ss :: rest, (c, e), h => by
    rw [parseEncLoopA_cons]
    cases hr : (parseCodingA ss).2.2 with
    | some err => exact parseEncLoopA_inv rest _ h
    | none =>
      exact parseEncLoopA_inv rest _
        (all_nanOrUnit_mapAssign c _ _ h (nanOrUnit_parseCodingA ss))

/-- C5 (counterexample): the token `gzip;q=nan` parses without error
(`ParseFloat` accepts `nan`), both clamp comparisons are false on NaN, so
both drafts retain the weight NaN for gzip — a retained weight outside
the closed interval from 0.0 to 1.0. -/
theorem nan_qvalue_retained :
    (parseEncodingsB "gzip;q=nan".data).gzip = .nan ∧
    (parseEncodingsA "gzip;q=nan".data).1 = [("gzip".data, .nan)] ∧
    inUnitInterval .nan = false := by
  decide

/-- C5 (amended): for every header string, every weight retained by
either draft's parser is NaN (possible only when the client sends an
explicit NaN qvalue, which the clamp passes through) or lies in the
closed interval from 0.0 to 1.0. -/
theorem retained_weights_nan_or_unit (s : List Char) :
    nanOrUnit (parseEncodingsB s).identity = true ∧
    nanOrUnit (parseEncodingsB s).gzip = true ∧
    nanOrUnit (parseEncodingsB s).deflate = true ∧
    ((parseEncodingsA s).1.all fun p => nanOrUnit p.2) = true := by
  have hb := parseEncLoopB_inv (goSplit s ',') ⟨.fin 0, .fin 0, .fin 0⟩
    (by decide) (by decide) (by decide)
  exact ⟨hb.1, hb.2.1, hb.2.2, parseEncLoopA_inv (goSplit s ',') ([], []) (by decide)⟩
